import Mathlib

/-!
Verification development for the libmqtt client core (src/util.go).
Each Go function the claims refer to is shallowly embedded as an
executable Lean definition; machine integers are modelled as `Nat`
with explicit reductions modulo 2^16 / 2^32 where Go truncates.
-/

namespace Libmqtt

/-- Go `uint16(x)` truncation. -/
def u16 (n : Nat) : Nat := n % 65536

/-- Go `uint32` wrap-around arithmetic (`atomic.AddUint32` wraps modulo 2^32). -/
def u32 (n : Nat) : Nat := n % 4294967296

/-! ## idGenerator (src/util.go lines 57-106)

The `sync.Map` of used ids is modelled as the list of its keys; the
stored `extra` values are irrelevant to the claims about `next`.  The
sequential semantics of one uninterleaved call to `next` is modelled
(the claim quantifies over single calls). -/

structure idGenerator where
  nextID : Nat        -- the uint32 counter
  usedIDs : List Nat  -- keys currently present in the sync.Map
deriving Repr, DecidableEq

/-- `sync.Map.LoadOrStore(id, extra)`: second result is the map after the
call, first result is Go's `loaded` flag. -/
def idGenerator.loadOrStore (g : idGenerator) (id : Nat) : Bool × idGenerator :=
  if id ∈ g.usedIDs then (true, g) else (false, ⟨g.nextID, id :: g.usedIDs⟩)

/-- The collision `for` loop of `idGenerator.next`:

    for i := 0; loaded; id = uint16(atomic.AddUint32(&g.nextID, 1)) {
      if i == math.MaxUint16 { return 0 }
      _, loaded = g.usedIDs.LoadOrStore(id, extra)
      i++
    }
    return uint16(id)

Go executes the post statement after every body execution (also the
last one), then re-checks the condition.  `fuel = 65535 - i`, so the
`i == math.MaxUint16` test is `fuel = 0`. -/
def idGenerator.nextLoop : idGenerator → Nat → Bool → Nat → Nat × idGenerator
  | g, id, loaded, fuel =>
    if loaded then
      match fuel with
      | 0 => (0, g)
      | f + 1 =>
        let r := g.loadOrStore id
        let c := u32 (r.2.nextID + 1)
        idGenerator.nextLoop ⟨c, r.2.usedIDs⟩ (u16 c) r.1 f
    else (u16 id, g)

/-- `idGenerator.next(extra)` (src/util.go lines 71-98), returning the
produced id together with the generator state after the call. -/
def idGenerator.next (g : idGenerator) : Nat × idGenerator :=
  let c0 := u32 (g.nextID + 1)
  let id0 := u16 c0
  -- if id == 0 { atomic.StoreUint32(&g.nextID, 1); id = 1 }
  let c := if id0 = 0 then 1 else c0
  let id := if id0 = 0 then 1 else id0
  let g1 : idGenerator := ⟨c, g.usedIDs⟩
  let r := g1.loadOrStore id
  if r.1 then idGenerator.nextLoop r.2 id true 65535 else (u16 id, r.2)

/-- `idGenerator.free(id)` (src/util.go lines 100-102). -/
def idGenerator.free (g : idGenerator) (id : Nat) : idGenerator :=
  ⟨g.nextID, g.usedIDs.filter (· ≠ id)⟩

/-- C1: the claim says a non-zero result of `next` was never live in the
side-table and that `next` returns 0 exactly when the id space is
exhausted.  The code violates both conjuncts: because Go's `for` post
statement advances `id` after the final (successful) `LoadOrStore`, the
collision path returns an id it never stored.  At state
`⟨nextID = 0, used = {1, 3}⟩` a call returns 3 — an id that is live in
the side-table (bound to some other origin) while the id actually
registered is 2.  At state `⟨nextID = 65533, used = {65534}⟩` a call
returns 0 (after the counter truncation wraps to 0) although 65533 of
the 65535 ids are free, so the space is not exhausted. -/
theorem C1_idGenerator_next_bug :
    idGenerator.next ⟨0, [1, 3]⟩ = (3, ⟨3, [2, 1, 3]⟩) ∧
    3 ∈ (⟨0, [1, 3]⟩ : idGenerator).usedIDs ∧
    idGenerator.next ⟨65533, [65534]⟩ = (0, ⟨65536, [65535, 65534]⟩) ∧
    1 ∉ (⟨65533, [65534]⟩ : idGenerator).usedIDs := by
  refine ⟨by decide, by decide, by decide, by decide⟩

/-! ## Variable-length remaining-length integer (src/util.go lines 126-146
and 171-186) -/

/-- Modelled from the spec: the constant `maxMsgSize` is declared outside
src/util.go; the spec fixes the variable-int limit at 268,435,455. -/
def maxMsgSize : Nat := 268435455

/-- The byte-emitting loop of `writeVarInt`:

    for n > 0 {
      encodedByte := byte(n % 128)
      n /= 128
      if n > 0 { encodedByte |= 128 }
      w.WriteByte(encodedByte)
    } -/
def writeVarIntLoop (n : Nat) : List Nat :=
  if h : n = 0 then []
  else (n % 128 ||| if 0 < n / 128 then 128 else 0) :: writeVarIntLoop (n / 128)
termination_by n
decreasing_by exact Nat.div_lt_self (Nat.pos_of_ne_zero h) (by norm_num)

/-- `writeVarInt` (src/util.go lines 126-146); the Go `int` argument is
modelled as ℤ.  `.error ()` is `ErrEncodeLargePacket`; the returned list is
everything the function writes to `w` (nothing on the error path, a single
zero byte for `n = 0`, otherwise the loop output). -/
def writeVarInt (n : Int) : Except Unit (List Nat) :=
  if n < 0 ∨ n > (maxMsgSize : Int) then .error ()
  else if n = 0 then .ok [0]
  else .ok (writeVarIntLoop n.toNat)

/-- `getRemainLength` (src/util.go lines 171-186).  The `io.ByteReader` is
modelled as the list of bytes not yet read; `(0, 0)` is the return value on
a `ReadByte` error.  Go's `length |= int(b&127) << m` is `|||` here; the
loop state is `(remaining stream, m, length)`:

    var m uint32
    for m < 27 {
      b, err := r.ReadByte()
      if err != nil { return 0, 0 }
      length |= int(b&127) << m
      if (b & 128) == 0 { break }
      m += 7
    }
    return int(length), int(m/7 + 1) -/
def getRemainLengthAux : List Nat → Nat → Nat → Nat × Nat
  | bs, m, length =>
    if m < 27 then
      match bs with
      | [] => (0, 0)
      | b :: rest =>
        let len2 := length ||| (b &&& 127) <<< m
        if b &&& 128 = 0 then (len2, m / 7 + 1)
        else getRemainLengthAux rest (m + 7) len2
    else (length, m / 7 + 1)

def getRemainLength (bs : List Nat) : Nat × Nat := getRemainLengthAux bs 0 0

/-! ### Bit-level helper lemmas for the varint proofs -/

theorem and127_eq_mod (b : Nat) : b &&& 127 = b % 128 := by
  have := Nat.and_pow_two_sub_one_eq_mod b 7
  norm_num at this
  exact this

theorem lor_low (a x m : Nat) (h : a < 2 ^ m) : a ||| x <<< m = a + x * 2 ^ m := by
  rw [Nat.lor_comm, Nat.shiftLeft_eq]
  have h2 := (Nat.mul_add_lt_is_or h x).symm
  rw [mul_comm] at h2
  omega

theorem mod128_and128 (n : Nat) : (n % 128) &&& 128 = 0 := by
  have h : (128 : Nat) = 2 ^ 7 := by norm_num
  rw [h, Nat.and_two_pow]
  have : Nat.testBit (n % 128) 7 = false :=
    Nat.testBit_lt_two_pow (by omega : n % 128 < 2 ^ 7)
  simp [this]

theorem mod128_or128_and128 (n : Nat) : (n % 128 ||| 128) &&& 128 ≠ 0 := by
  have hadd : n % 128 ||| 128 = n % 128 + 128 := by
    have := lor_low (n % 128) 1 7 (by omega)
    simpa using this
  rw [hadd]
  have h : (128 : Nat) = 2 ^ 7 := by norm_num
  rw [h, Nat.and_two_pow]
  have ht : Nat.testBit (n % 128 + 128) 7 = true := by
    rw [Nat.testBit_to_div_mod]
    have : (n % 128 + 128) / 2 ^ 7 = 1 := by omega
    simp [this]
  simp [ht]

theorem or128_and127 (n : Nat) : (n % 128 ||| 128) &&& 127 = n % 128 := by
  have hadd : n % 128 ||| 128 = n % 128 + 128 := by
    have := lor_low (n % 128) 1 7 (by omega)
    simpa using this
  rw [hadd, and127_eq_mod]
  omega

/-- One loop iteration of `getRemainLength` on a non-empty stream. -/
theorem getRemainLengthAux_cons (b : Nat) (rest : List Nat) (m length : Nat)
    (hm : m < 27) :
    getRemainLengthAux (b :: rest) m length =
      if b &&& 128 = 0 then (length ||| (b &&& 127) <<< m, m / 7 + 1)
      else getRemainLengthAux rest (m + 7) (length ||| (b &&& 127) <<< m) := by
  rw [getRemainLengthAux.eq_def]
  simp [hm]

/-- Loop exit of `getRemainLength` once the shift reaches 28. -/
theorem getRemainLengthAux_stop (bs : List Nat) (m length : Nat)
    (hm : ¬m < 27) :
    getRemainLengthAux bs m length = (length, m / 7 + 1) := by
  rw [getRemainLengthAux.eq_def]
  simp [hm]

/-- Decoding the loop output of `writeVarIntLoop n` (followed by anything)
starting at shift `m` with accumulator `length` produces `length + n * 2^m`. -/
theorem getRemainLengthAux_loop (k : Nat) :
    ∀ (n m length : Nat) (rest : List Nat), 0 < n → n < 128 ^ k →
      m + 7 * k ≤ 28 → length < 2 ^ m →
      (getRemainLengthAux (writeVarIntLoop n ++ rest) m length).1
        = length + n * 2 ^ m := by
  induction k with
  | zero =>
    intro n m length rest hn hk _ _
    simp at hk
    omega
  | succ k ih =>
    intro n m length rest hn hk hm hlen
    have hm27 : m < 27 := by omega
    by_cases h0 : n / 128 = 0
    · -- last byte: continuation flag clear, the loop recursion is empty
      have hn128 : n < 128 := by omega
      have hbytes : writeVarIntLoop n = [n % 128] := by
        rw [writeVarIntLoop, dif_neg (by omega : ¬n = 0), h0, writeVarIntLoop]
        norm_num [Nat.or_zero]
      have e1 : n % 128 &&& 127 = n := by
        rw [and127_eq_mod]
        omega
      rw [hbytes, List.singleton_append,
        getRemainLengthAux_cons _ _ _ _ hm27, if_pos (mod128_and128 n), e1]
      simp only [lor_low _ _ _ hlen]
    · -- continuation byte, recurse on n / 128
      have hbytes : writeVarIntLoop n
          = (n % 128 ||| 128) :: writeVarIntLoop (n / 128) := by
        rw [writeVarIntLoop, dif_neg (by omega : ¬n = 0),
          if_pos (Nat.pos_of_ne_zero h0)]
      rw [hbytes, List.cons_append, getRemainLengthAux_cons _ _ _ _ hm27,
        if_neg (mod128_or128_and128 n), or128_and127, lor_low _ _ _ hlen]
      have hp : (2 : Nat) ^ (m + 7) = 2 ^ m * 128 := by
        rw [pow_add]
        norm_num
      have hdiv : n / 128 < 128 ^ k :=
        (Nat.div_lt_iff_lt_mul (by norm_num)).mpr (by rw [← pow_succ]; exact hk)
      have hbound : length + n % 128 * 2 ^ m < 2 ^ (m + 7) := by
        rw [hp]
        calc length + n % 128 * 2 ^ m
            < 2 ^ m + n % 128 * 2 ^ m := by omega
          _ ≤ 2 ^ m + 127 * 2 ^ m := by
              have : n % 128 * 2 ^ m ≤ 127 * 2 ^ m :=
                Nat.mul_le_mul_right _ (by omega)
              omega
          _ = 2 ^ m * 128 := by ring
      rw [ih (n / 128) (m + 7) (length + n % 128 * 2 ^ m) rest
        (Nat.pos_of_ne_zero h0) hdiv (by omega) hbound]
      have hd : 128 * (n / 128) + n % 128 = n := Nat.div_add_mod n 128
      have hmul : n * 2 ^ m = (128 * (n / 128) + n % 128) * 2 ^ m := by rw [hd]
      rw [hp, hmul]
      ring

/-- C7 (counterexample): the claim says the decoder treats a 5th
continuation byte as an encoding error, but `getRemainLength` has no error
outcome there: on `[128,128,128,128,7]` it returns the ordinary pair
`(0, 5)` (the length assembled from the four 7-bit payloads, and byte count
5), exactly the same value as when no 5th byte exists at all, and distinct
from its read-failure result `(0, 0)`. -/
theorem C7_remainLength_counterexample :
    getRemainLength [128, 128, 128, 128, 7] = (0, 5) ∧
    getRemainLength [128, 128, 128, 128] = (0, 5) ∧
    ((0, 5) : Nat × Nat) ≠ ((0, 0) : Nat × Nat) := by
  refine ⟨by decide, by decide, by decide⟩

/-- C7 (amended): `writeVarInt` returns `ErrEncodeLargePacket` exactly for
negative inputs and inputs above 268,435,455 and writes nothing then;
`getRemainLength` reads at most 4 bytes (its result does not depend on the
stream past the 4th byte); when all four bytes carry the continuation bit it
returns normally with byte count 5 instead of signalling an error; and
decoding an encoding of any value in 0..268,435,455 yields that value. -/
theorem C7_varint_amended (n : Int) (v : Nat) (bytes rest r r2 : List Nat)
    (b1 b2 b3 b4 c0 c1 c2 c3 : Nat)
    (hv : v ≤ maxMsgSize) (hok : writeVarInt (v : Int) = .ok bytes)
    (h1 : b1 &&& 128 ≠ 0) (h2 : b2 &&& 128 ≠ 0) (h3 : b3 &&& 128 ≠ 0)
    (h4 : b4 &&& 128 ≠ 0) :
    (writeVarInt n = .error () ↔ n < 0 ∨ (maxMsgSize : Int) < n) ∧
    getRemainLength (c0 :: c1 :: c2 :: c3 :: r)
      = getRemainLength (c0 :: c1 :: c2 :: c3 :: r2) ∧
    (getRemainLength (b1 :: b2 :: b3 :: b4 :: r)).2 = 5 ∧
    (getRemainLength (bytes ++ rest)).1 = v := by
  refine ⟨?_, ?_, ?_, ?_⟩
  · simp only [writeVarInt]
    split_ifs with hc hz
    · simpa using hc
    · simpa using hc
    · simpa using hc
  · show getRemainLengthAux _ 0 0 = getRemainLengthAux _ 0 0
    rw [getRemainLengthAux_cons _ _ _ _ (by norm_num)]
    conv_rhs => rw [getRemainLengthAux_cons _ _ _ _ (by norm_num)]
    split_ifs with hs0
    · rfl
    rw [getRemainLengthAux_cons _ _ _ _ (by norm_num)]
    conv_rhs => rw [getRemainLengthAux_cons _ _ _ _ (by norm_num)]
    split_ifs with hs1
    · rfl
    rw [getRemainLengthAux_cons _ _ _ _ (by norm_num)]
    conv_rhs => rw [getRemainLengthAux_cons _ _ _ _ (by norm_num)]
    split_ifs with hs2
    · rfl
    rw [getRemainLengthAux_cons _ _ _ _ (by norm_num)]
    conv_rhs => rw [getRemainLengthAux_cons _ _ _ _ (by norm_num)]
    split_ifs with hs3
    · rfl
    rw [getRemainLengthAux_stop _ _ _ (by norm_num)]
    conv_rhs => rw [getRemainLengthAux_stop _ _ _ (by norm_num)]
  · show (getRemainLengthAux _ 0 0).2 = 5
    rw [getRemainLengthAux_cons _ _ _ _ (by norm_num), if_neg h1,
      getRemainLengthAux_cons _ _ _ _ (by norm_num), if_neg h2,
      getRemainLengthAux_cons _ _ _ _ (by norm_num), if_neg h3,
      getRemainLengthAux_cons _ _ _ _ (by norm_num), if_neg h4,
      getRemainLengthAux_stop _ _ _ (by norm_num)]
  · simp only [writeVarInt] at hok
    have hcond : ¬((v : Int) < 0 ∨ (v : Int) > (maxMsgSize : Int)) := by
      push_neg
      exact ⟨Int.natCast_nonneg v, by exact_mod_cast hv⟩
    rw [if_neg hcond] at hok
    by_cases hz : v = 0
    · subst hz
      norm_num at hok
      rw [← hok, List.singleton_append]
      show (getRemainLengthAux _ 0 0).1 = 0
      rw [getRemainLengthAux_cons _ _ _ _ (by norm_num), if_pos (by decide)]
      decide
    · have hvz : ¬((v : Int) = 0) := by exact_mod_cast hz
      rw [if_neg hvz] at hok
      have hb : bytes = writeVarIntLoop v := by
        have := hok
        simp [Int.toNat_natCast] at this
        exact this.symm
      subst hb
      have hlt : v < 128 ^ 4 := by
        have : (128 : Nat) ^ 4 = 268435456 := by norm_num
        rw [this]
        simp only [maxMsgSize] at hv
        omega
      have h4b := getRemainLengthAux_loop 4 v 0 0 rest
        (Nat.pos_of_ne_zero hz) hlt (by norm_num) (by norm_num)
      simpa using h4b

theorem writeVarIntLoop_zero : writeVarIntLoop 0 = [] := by
  rw [writeVarIntLoop]
  norm_num

theorem writeVarIntLoop_one : writeVarIntLoop 1 = [1] := by
  rw [writeVarIntLoop]
  norm_num [writeVarIntLoop_zero]

/-- C7 witness: the amended theorem applied at concrete inputs
(`n = -1`, `v = 1`, the all-continuation bytes equal to 128). -/
theorem C7_varint_amended_witness : (getRemainLength ([1] ++ [])).1 = 1 :=
  (C7_varint_amended (-1) 1 [1] [] [] [7] 128 128 128 128 0 0 0 0
    (by norm_num [maxMsgSize])
    (by norm_num [writeVarInt, maxMsgSize, writeVarIntLoop_one])
    (by decide) (by decide) (by decide) (by decide)).2.2.2

/-! ## Reconnect backoff (AsyncClient.connect, src/util.go lines 593-608) -/

/-- The reconnect delay computed at the bottom of `AsyncClient.connect`:

    var delay time.Duration
    if nfail > 0 {
      delay = time.Duration(float64(c.options.firstDelay) *
                math.Pow(c.options.backOffFactor, float64(nfail-1)))
      if delay > c.options.maxDelay { delay = c.options.maxDelay }
    }

Durations and the float64 `math.Pow` arithmetic are modelled exactly
over ℚ; `nfail` is a natural exponent here, so `math.Pow` is an ordinary
power. -/
def reconnectDelay (firstDelay maxDelay backOffFactor : ℚ) (nfail : Nat) : ℚ :=
  if nfail = 0 then 0
  else min maxDelay (firstDelay * backOffFactor ^ (nfail - 1))

/-- C5: the reconnect delay is 0 at failure count 0 and
`min maxDelay (firstDelay * backOffFactor^(n-1))` for `n ≥ 1`; with
`backOffFactor ≥ 1` (and non-negative configured delays) it is monotone
non-decreasing in `n` and never exceeds `maxDelay`. -/
theorem C5_reconnectDelay (first mx factor : ℚ) (n : Nat)
    (hfirst : 0 ≤ first) (hmax : 0 ≤ mx) (hfactor : 1 ≤ factor) :
    reconnectDelay first mx factor 0 = 0 ∧
    (1 ≤ n → reconnectDelay first mx factor n
        = min mx (first * factor ^ (n - 1))) ∧
    reconnectDelay first mx factor n ≤ reconnectDelay first mx factor (n + 1) ∧
    reconnectDelay first mx factor n ≤ mx := by
  refine ⟨by simp [reconnectDelay], fun hn => ?_, ?_, ?_⟩
  · rw [reconnectDelay, if_neg (by omega)]
  · cases n with
    | zero =>
      rw [reconnectDelay, if_pos rfl, reconnectDelay, if_neg (by omega)]
      simp only [Nat.sub_self, pow_zero, mul_one]
      exact le_min hmax hfirst
    | succ k =>
      rw [reconnectDelay, if_neg (by omega), reconnectDelay, if_neg (by omega)]
      refine min_le_min le_rfl ?_
      have hpow : factor ^ (k + 1 - 1) ≤ factor ^ (k + 1 + 1 - 1) :=
        pow_le_pow_right₀ hfactor (by omega)
      exact mul_le_mul_of_nonneg_left hpow hfirst
  · cases n with
    | zero => rw [reconnectDelay, if_pos rfl]; exact hmax
    | succ k => rw [reconnectDelay, if_neg (by omega)]; exact min_le_left _ _

/-- C5 witness: the backoff theorem at the default options
(first-delay 5s, max-delay 120s, factor 1.5) and failure count 3. -/
theorem C5_reconnectDelay_witness :
    reconnectDelay 5 120 (3 / 2) 0 = 0 ∧
    (1 ≤ 3 → reconnectDelay 5 120 (3 / 2) 3
        = min 120 (5 * (3 / 2) ^ (3 - 1))) ∧
    reconnectDelay 5 120 (3 / 2) 3 ≤ reconnectDelay 5 120 (3 / 2) 4 ∧
    reconnectDelay 5 120 (3 / 2) 3 ≤ 120 :=
  C5_reconnectDelay 5 120 (3 / 2) 3 (by norm_num) (by norm_num) (by norm_num)

/-! ## CONNACK wait (clientConn.waitForConnAck, src/util.go lines
1098-1114) and connect failure dispatch (AsyncClient.connect, lines
569-578) -/

/-- A packet as inspected by `waitForConnAck`: only the control type and,
for a CONNACK, its return code matter; `other` stands for every
non-CONNACK packet. -/
inductive RecvPacket
  | connAck (code : Nat)
  | other
deriving Repr, DecidableEq

/-- The first event `waitForConnAck` observes in its select: expiry or
cancellation of the dial context, closure of the net-recv channel, or a
received packet. -/
inductive ConnAckEvent
  | ctxDone
  | chanClosed
  | recv (pkt : RecvPacket)
deriving Repr, DecidableEq

/-- The error values reachable from `waitForConnAck`.  `ctxErr` is
`ctx.Err()` (context.DeadlineExceeded on expiry of the dial-timeout
context, context.Canceled when the parent was cancelled); `errTimeOut` is
the package-level `ErrTimeOut = errors.New("connection timeout ")`, a
distinct error value; `errDecodeBadPacket` is `ErrDecodeBadPacket`;
`connAckErr code` is `connAckError(code)` (underlying type byte). -/
inductive ConnAckWaitErr
  | ctxErr
  | errTimeOut
  | errDecodeBadPacket
  | connAckErr (code : Nat)
deriving Repr, DecidableEq

/-- `clientConn.waitForConnAck`:

    select {
    case <-ctx.Done():
      return ctx.Err()
    case pkt, more := <-c.netRecvC:
      if !more || pkt.Type() != CtrlConnAck { return ErrDecodeBadPacket }
      p := pkt.(*ConnAckPacket)
      if p.Code != CodeSuccess { return connAckError(p.Code) }
      else { return nil }
    }

`none` is the nil error (success); `CodeSuccess` is 0. -/
def waitForConnAck : ConnAckEvent → Option ConnAckWaitErr
  | .ctxDone => some .ctxErr
  | .chanClosed => some .errDecodeBadPacket
  | .recv .other => some .errDecodeBadPacket
  | .recv (.connAck code) =>
      if code ≠ 0 then some (.connAckErr code) else none

/-- The byte handed to the ConnHandler by `AsyncClient.connect` when
`tryConnect` fails with `err`:

    code := byte(math.MaxUint8)
    if conerr, ok := err.(connAckError); ok { code = byte(conerr) }

`connAckError` already has underlying type byte, so the conversion is the
identity on its code. -/
def connectFailureCode (err : ConnAckWaitErr) : Nat :=
  match err with
  | .connAckErr code => code
  | _ => 255

/-- C2 (counterexample): the claim says `waitForConnAck` returns
`ErrTimeOut` when the dial context expires first, but the code returns
`ctx.Err()` — a different error value (`ErrTimeOut` is declared in the
package and never returned by it). -/
theorem C2_waitForConnAck_counterexample :
    waitForConnAck .ctxDone = some .ctxErr ∧
    some ConnAckWaitErr.ctxErr ≠ some ConnAckWaitErr.errTimeOut := by
  refine ⟨by decide, by decide⟩

/-- C2 (amended): `waitForConnAck` returns the context's own error (not
`ErrTimeOut`) when the context expires first, the decode error when the
channel closes or the first packet is not a CONNACK, `connAckError(code)`
for a CONNACK with non-zero code and success (nil) for code 0; the
supervisor hands exactly that broker byte code to the ConnHandler on a
CONNACK rejection (and the sentinel 255 for every other failure). -/
theorem C2_waitForConnAck_amended (code : Nat) (hc : code ≠ 0) :
    waitForConnAck .ctxDone = some .ctxErr ∧
    waitForConnAck .chanClosed = some .errDecodeBadPacket ∧
    waitForConnAck (.recv .other) = some .errDecodeBadPacket ∧
    waitForConnAck (.recv (.connAck code)) = some (.connAckErr code) ∧
    waitForConnAck (.recv (.connAck 0)) = none ∧
    connectFailureCode (.connAckErr code) = code ∧
    connectFailureCode .ctxErr = 255 ∧
    connectFailureCode .errDecodeBadPacket = 255 := by
  refine ⟨rfl, rfl, rfl, ?_, rfl, rfl, rfl, rfl⟩
  simp [waitForConnAck, hc]

/-- C2 witness: the amended theorem at broker code 5. -/
theorem C2_waitForConnAck_amended_witness :
    waitForConnAck (.recv (.connAck 5)) = some (.connAckErr 5) :=
  (C2_waitForConnAck_amended 5 (by decide)).2.2.2.1

/-! ## Send pump (clientConn.handleSend, src/util.go lines 975-1046) and
Destroy (AsyncClient.Destroy, lines 517-524) -/

/-- `sendKey(packetID)` = `fmt.Sprintf("%s%d", "S", packetID)`. -/
def sendKey (packetID : Nat) : String := "S" ++ toString packetID

/-- `recvKey(packetID)` = `fmt.Sprintf("%s%d", "R", packetID)`. -/
def recvKey (packetID : Nat) : String := "R" ++ toString packetID

/-- An outbound control packet as dispatched on by `handleSend` via
`pkt.Type()` (and, for publishes, `p.Qos`). -/
inductive OutboundPacket
  | publish (topicName : String) (qos packetID : Nat)
  | pubRel (packetID : Nat)
  | pubAck (packetID : Nat)
  | pubComp (packetID : Nat)
  | disConn
  | pingReq
  | subscribePkt (packetID : Nat)
  | unSubPkt (packetID : Nat)
deriving Repr, DecidableEq

/-- Which select arm of `handleSend` delivered the packet: the shared
outbound channel `c.parent.sendCh`, or the session-local `c.logicSendC`. -/
inductive SendSource
  | shared
  | logic
deriving Repr, DecidableEq

/-- The post-transmission side effects of one `handleSend` iteration
(after `pkt.WriteTo` and `Flush` succeeded). -/
structure SendEffects where
  pubEvents : List String        -- notifyPubMsg(c.parent.msgCh, topic, nil)
  clientExit : Bool              -- c.parent.exit()
  connClosed : Bool              -- c.conn.Close()
  persistStores : List String    -- persist.Store keys
  persistDeletes : List String   -- persist.Delete keys
  returns : Bool                 -- the send pump returns
deriving Repr, DecidableEq

/-- No side effects. -/
def noEffects : SendEffects := ⟨[], false, false, [], [], false⟩

/-- One iteration of `handleSend` (src/util.go lines 983-1045): packets
from the shared channel get the `pkt.Type()` switch with the `CtrlPublish`
and `CtrlDisConn` cases; packets from the logic-send channel get the
switch with the `CtrlPubRel`, `CtrlPubAck`, `CtrlPubComp` and
`CtrlDisConn` cases. -/
def handleSendStep (src : SendSource) (pkt : OutboundPacket) : SendEffects :=
  match src with
  | .shared =>
    match pkt with
    | .publish topic qos _ =>
        if qos = 0 then { noEffects with pubEvents := [topic] } else noEffects
    | .disConn => { noEffects with clientExit := true, returns := true }
    | _ => noEffects
  | .logic =>
    match pkt with
    | .pubRel id => { noEffects with persistStores := [sendKey id] }
    | .pubAck id => { noEffects with persistDeletes := [sendKey id] }
    | .pubComp id => { noEffects with persistDeletes := [sendKey id] }
    | .disConn => { noEffects with connClosed := true, returns := true }
    | _ => noEffects

/-- `AsyncClient.Destroy(force)`: `force` cancels the client token at
once, otherwise a `DisConnPacket` is enqueued on the shared outbound
channel. -/
inductive DestroyAction
  | cancelClient
  | enqueueOutbound (pkt : OutboundPacket)
deriving Repr, DecidableEq

def Destroy (force : Bool) : DestroyAction :=
  if force then .cancelClient else .enqueueOutbound .disConn

/-- C4: the post-transmission effects of the send pump: a QoS-0 publish
from the shared channel emits the completion event for its topic with nil
error; a DisConnect from the shared channel cancels the client-wide token
and the pump returns; an outbound PubRel stores `S<id>`; an outbound
PubAck deletes `S<id>`; an outbound PubComp deletes `S<id>`.  `Destroy`
enqueues the DisConnect when `force` is false and cancels immediately
when it is true. -/
theorem C4_handleSend_effects (topic : String) (id : Nat) :
    handleSendStep .shared (.publish topic 0 id)
      = { noEffects with pubEvents := [topic] } ∧
    handleSendStep .shared .disConn
      = { noEffects with clientExit := true, returns := true } ∧
    handleSendStep .logic (.pubRel id)
      = { noEffects with persistStores := [sendKey id] } ∧
    handleSendStep .logic (.pubAck id)
      = { noEffects with persistDeletes := [sendKey id] } ∧
    handleSendStep .logic (.pubComp id)
      = { noEffects with persistDeletes := [sendKey id] } ∧
    Destroy false = .enqueueOutbound .disConn ∧
    Destroy true = .cancelClient :=
  ⟨rfl, rfl, rfl, rfl, rfl, rfl, rfl⟩

/-! ## Publish (AsyncClient.Publish, src/util.go lines 450-475) -/

/-- Modelled from the spec: the QoS byte constants (declared outside
src/util.go); qos levels are 0, 1 and 2. -/
def Qos0 : Nat := 0

/-- Modelled from the spec: see `Qos0`. -/
def Qos2 : Nat := 2

/-- The fields of `*PublishPacket` that `Publish` touches. -/
structure PublishPacket where
  topicName : String
  payload : List Nat
  qos : Nat        -- byte
  packetID : Nat   -- uint16
deriving Repr, DecidableEq

/-- The client state `Publish` interacts with: the id generator, the
persisted key/packet pairs (`c.persist.Store`), and the shared outbound
channel `c.sendCh`, modelled as the list of enqueued packets in order. -/
structure PublishState where
  idGen : idGenerator
  persisted : List (String × PublishPacket)
  sendCh : List PublishPacket
deriving Repr, DecidableEq

/-- The body of the `Publish` loop for one element `m` of the argument
list (`none` models a nil pointer, skipped by the loop):

    p := m
    if p.Qos > Qos2 { p.Qos = Qos2 }
    if p.Qos != Qos0 {
      if p.PacketID == 0 {
        p.PacketID = c.idGen.next(p)
        if err := c.persist.Store(sendKey(p.PacketID), p); err != nil {
          notifyPersistMsg(c.msgCh, err)
        }
      }
    }
    c.sendCh <- p

`persist.Store` is modelled as recording the pair (a store error only
emits a persist event and is not otherwise acted on). -/
def publishOne (st : PublishState) (m : Option PublishPacket) : PublishState :=
  match m with
  | none => st
  | some m =>
    let p := if m.qos > Qos2 then { m with qos := Qos2 } else m
    let pst :=
      if p.qos ≠ Qos0 ∧ p.packetID = 0 then
        let r := st.idGen.next
        let q := { p with packetID := r.1 }
        (q, { st with idGen := r.2,
                      persisted := (sendKey r.1, q) :: st.persisted })
      else (p, st)
    { pst.2 with sendCh := pst.2.sendCh ++ [pst.1] }

/-- `AsyncClient.Publish(msg ...*PublishPacket)`; `closing` is the value
of `c.isClosing()` at entry (if true, the call returns at once). -/
def Publish (closing : Bool) (st : PublishState)
    (msg : List (Option PublishPacket)) : PublishState :=
  if closing then st else msg.foldl publishOne st

/-- C3: `Publish` processes its packets one by one (nil packets skipped,
nothing when closing); for each packet, qos above 2 is clamped to 2; when
the clamped qos is non-zero and the id is 0, an id is allocated from the
generator and the packet is persisted under `S<id>` in the same step in
which it is appended to the outbound channel (and nothing else changes);
otherwise the packet is only appended. -/
theorem C3_Publish_correct (st : PublishState) (m : PublishPacket)
    (ms : List (Option PublishPacket)) :
    Publish true st (some m :: ms) = st ∧
    Publish false st (some m :: ms) = Publish false (publishOne st (some m)) ms ∧
    Publish false st (none :: ms) = Publish false st ms ∧
    (∀ q, q = (if 2 < m.qos then { m with qos := 2 } else m) →
      q.qos ≤ 2 ∧
      (¬(q.qos ≠ 0 ∧ q.packetID = 0) →
        publishOne st (some m) = { st with sendCh := st.sendCh ++ [q] }) ∧
      ((q.qos ≠ 0 ∧ q.packetID = 0) →
        publishOne st (some m) =
          { idGen := st.idGen.next.2,
            persisted := (sendKey st.idGen.next.1,
              { q with packetID := st.idGen.next.1 }) :: st.persisted,
            sendCh := st.sendCh ++
              [{ q with packetID := st.idGen.next.1 }] })) := by
  refine ⟨by simp [Publish], by simp [Publish], by simp [Publish, publishOne],
    fun q hq => ⟨?_, fun hnot => ?_, fun hyes => ?_⟩⟩
  · subst hq
    split_ifs with h
    · simp
    · omega
  · subst hq
    simp only [publishOne, Qos0, Qos2]
    rw [if_neg hnot]
  · subst hq
    simp only [publishOne, Qos0, Qos2]
    rw [if_pos hyes]

/-- C3 witness: publishing one fresh QoS-1 packet on an empty client
allocates id 1, persists it under `S1` and enqueues it. -/
theorem C3_Publish_correct_witness :
    publishOne ⟨⟨0, []⟩, [], []⟩ (some ⟨"t", [], 1, 0⟩) =
      ⟨⟨1, [1]⟩, [(sendKey 1, ⟨"t", [], 1, 1⟩)], [⟨"t", [], 1, 1⟩]⟩ := by
  have h := ((C3_Publish_correct ⟨⟨0, []⟩, [], []⟩ ⟨"t", [], 1, 0⟩ []).2.2.2
    ⟨"t", [], 1, 0⟩ (by decide)).2.2 (by decide)
  rw [h]
  decide

/-! ## Keepalive watchdog (clientConn.keepalive, src/util.go lines
934-972; started by clientConn.logic, lines 789-793) -/

/-- `clientConn.logic` starts the keepalive goroutine only when
`c.parent.options.keepalive > 0` (`keepalive` is a `time.Duration`,
an int64 nanosecond count). -/
def logicStartsKeepalive (keepalive : Int) : Bool := decide (0 < keepalive)

/-- The ticker period `c.parent.options.keepalive * 3 / 4`
(integer `time.Duration` arithmetic). -/
def keepalivePulsePeriod (keepalive : Int) : Int := keepalive * 3 / 4

/-- The sliding timeout
`time.Duration(float64(c.parent.options.keepalive) * keepaliveFactor)`;
the float64 product is modelled over ℚ. -/
def keepaliveTimeout (keepalive : Int) (factor : ℚ) : ℚ :=
  (keepalive : ℚ) * factor

/-- The outer select of one keepalive loop iteration: session
cancellation or a ticker pulse. -/
inductive KeepaliveOuter
  | ctxDone
  | tick
deriving Repr, DecidableEq

/-- The inner select, reached after the ping was sent: session
cancellation, a pulse from the receive pump on `c.keepaliveC` (or its
closure), or expiry of the timeout timer. -/
inductive KeepaliveInner
  | ctxDone
  | pulse
  | pulseChanClosed
  | timeout
deriving Repr, DecidableEq

/-- What one iteration of the keepalive loop does. -/
structure KeepaliveStep where
  pingSentToLogicChannel : Bool  -- c.send(PingReqPacket) on c.logicSendC
  timeoutReset : Bool            -- timeoutTimer.Reset(timeout)
  sessionCancelled : Bool        -- c.exit()
  exits : Bool                   -- the goroutine returns
deriving Repr, DecidableEq

/-- One iteration of the `keepalive` loop (src/util.go lines 948-971);
the inner event is only consulted when the outer event was a tick. -/
def keepaliveIter : KeepaliveOuter → KeepaliveInner → KeepaliveStep
  | .ctxDone, _ => ⟨false, false, false, true⟩
  | .tick, .ctxDone => ⟨true, false, false, true⟩
  | .tick, .pulse => ⟨true, true, false, false⟩
  | .tick, .pulseChanClosed => ⟨true, false, false, true⟩
  | .tick, .timeout => ⟨true, false, true, true⟩

/-- C6: the watchdog runs only for a positive configured interval, pulses
at interval × 3/4 with a sliding timeout of interval × keepalive-factor,
sends the ping to the logic-send channel on every pulse, and then either
exits on session cancellation, resets the timeout and continues on a
pulse from the receive pump, or cancels the session token and exits on
timeout expiry. -/
theorem C6_keepalive (k : Int) (f : ℚ) (inner : KeepaliveInner) :
    (logicStartsKeepalive k = true ↔ 0 < k) ∧
    keepalivePulsePeriod k = k * 3 / 4 ∧
    keepaliveTimeout k f = (k : ℚ) * f ∧
    keepaliveIter .ctxDone inner = ⟨false, false, false, true⟩ ∧
    keepaliveIter .tick .ctxDone = ⟨true, false, false, true⟩ ∧
    keepaliveIter .tick .pulse = ⟨true, true, false, false⟩ ∧
    keepaliveIter .tick .timeout = ⟨true, false, true, true⟩ := by
  refine ⟨?_, rfl, rfl, ?_, rfl, rfl, rfl⟩
  · simp [logicStartsKeepalive]
  · cases inner <;> rfl

/-- C6 witness: the default keepalive (2 minutes, in nanoseconds) does
start the watchdog, with a 90-second pulse period. -/
theorem C6_keepalive_witness :
    logicStartsKeepalive 120000000000 = true ∧
    keepalivePulsePeriod 120000000000 = 90000000000 := by
  refine ⟨((C6_keepalive 120000000000 (3 / 2) .pulse).1).mpr (by decide), ?_⟩
  rw [(C6_keepalive 120000000000 (3 / 2) .pulse).2.1]
  decide

/-! ## NewClient (src/util.go lines 352-370) and the defaults of
defaultClient (lines 396-420) -/

/-- The clientOptions fields read by `NewClient` and set by
`defaultClient`. -/
structure clientOptions where
  servers : List String
  secureServers : List String
  sendChanSize : Nat
  recvChanSize : Nat
deriving Repr, DecidableEq

/-- The defaults from `defaultClient`: `sendChanSize: 1`,
`recvChanSize: 1`, and no servers configured. -/
def defaultOptions : clientOptions :=
  { servers := [], secureServers := [], sendChanSize := 1, recvChanSize := 1 }

/-- The observable result of a successful `NewClient`: the capacities of
`c.sendCh = make(chan Packet, c.options.sendChanSize)` and
`c.recvCh = make(chan *PublishPacket, c.options.recvChanSize)`. -/
structure ClientChans where
  sendChCap : Nat
  recvChCap : Nat
deriving Repr, DecidableEq

/-- `NewClient` after the option functions were applied without error
(`opts` is the resulting options value; an option error makes `NewClient`
return that error and a nil client before this point):

    if (len(c.options.servers) + len(c.options.secureServers)) < 1 {
      return nil, errors.New("no server provided, won't work ")
    }
    c.sendCh = make(chan Packet, c.options.sendChanSize)
    c.recvCh = make(chan *PublishPacket, c.options.recvChanSize)
    return c, nil

`none` models the (nil, error) return. -/
def NewClient (opts : clientOptions) : Option ClientChans :=
  if opts.servers.length + opts.secureServers.length < 1 then none
  else some { sendChCap := opts.sendChanSize, recvChCap := opts.recvChanSize }

/-- C9: `NewClient` returns an error and no client exactly when no plain
or secure server endpoint is configured; otherwise the returned client's
outbound and inbound channels have the configured capacities, whose
defaults are 1 and 1. -/
theorem C9_NewClient (opts : clientOptions) :
    (NewClient opts = none ↔
      opts.servers.length + opts.secureServers.length = 0) ∧
    (0 < opts.servers.length + opts.secureServers.length →
      NewClient opts = some { sendChCap := opts.sendChanSize,
                              recvChCap := opts.recvChanSize }) ∧
    defaultOptions.sendChanSize = 1 ∧ defaultOptions.recvChanSize = 1 := by
  refine ⟨?_, fun h => ?_, rfl, rfl⟩
  · rw [NewClient]
    split_ifs with h
    · exact ⟨fun _ => by omega, fun _ => rfl⟩
    · constructor
      · intro hc
        exact hc.elim
      · intro hz
        exact absurd hz (by omega)
  · rw [NewClient, if_neg (by omega)]

/-- C9 witness: one configured endpoint yields a client with the default
capacities; the default options alone (no endpoint) yield an error. -/
theorem C9_NewClient_witness :
    NewClient ⟨["srv:1883"], [], 1, 1⟩ = some ⟨1, 1⟩ ∧
    NewClient defaultOptions = none :=
  ⟨(C9_NewClient ⟨["srv:1883"], [], 1, 1⟩).2.1 (by decide),
   (C9_NewClient defaultOptions).1.mpr (by decide)⟩

/-! ## SubAck handling (clientConn.logic, src/util.go lines 805-824) -/

/-- A subscription topic: `*Topic` with its filter name and qos byte. -/
structure Topic where
  name : String
  qos : Nat
deriving Repr, DecidableEq

/-- Origin packets stored in the id side-table, as discriminated by the
type switches of the logic loop. -/
inductive OriginPacket
  | subscribeOrigin (topics : List Topic)
  | unSubOrigin (topicNames : List String)
  | publishOrigin (p : PublishPacket)
deriving Repr, DecidableEq

/-- `idGenerator.getExtra(id)` over a side-table that also records the
stored origin packets (C8 needs the values; the table is the association
list id ↦ origin). -/
def getExtra (table : List (Nat × OriginPacket)) (id : Nat) :
    Option OriginPacket :=
  table.lookup id

/-- The positional overlay of the SubAck codes onto the origin topics:

    N := len(p.Codes)
    for i, v := range originSub.Topics {
      if i < N { v.Qos = p.Codes[i] }
    } -/
def overlayCodes : List Topic → List Nat → List Topic
  | ts, [] => ts
  | [], _ => []
  | t :: ts, c :: cs => { t with qos := c } :: overlayCodes ts cs

/-- The observable effects of the `*SubAckPacket` case of the logic
loop. -/
structure SubAckEffects where
  table : List (Nat × OriginPacket)   -- side-table after the step
  subDoneTopics : Option (List Topic) -- notifySubMsg(msgCh, topics, nil)
  persistDeletes : List String        -- persist.Delete keys
deriving Repr, DecidableEq

/-- `clientConn.logic`, case `*SubAckPacket` with packet id `pid` and
server codes `codes`: when `getExtra` resolves to a Subscribe origin, the
codes are overlaid positionally onto its topics, the sub-done event is
emitted with nil error, the id is freed, and `S<pid>` is deleted;
any other (or missing) origin leaves everything unchanged. -/
def handleSubAck (table : List (Nat × OriginPacket)) (pid : Nat)
    (codes : List Nat) : SubAckEffects :=
  match getExtra table pid with
  | some (.subscribeOrigin topics) =>
      { table := table.filter (fun e => e.1 != pid),
        subDoneTopics := some (overlayCodes topics codes),
        persistDeletes := [sendKey pid] }
  | _ => { table := table, subDoneTopics := none, persistDeletes := [] }

theorem overlayCodes_length (ts : List Topic) (cs : List Nat) :
    (overlayCodes ts cs).length = ts.length := by
  induction ts generalizing cs with
  | nil => cases cs <;> simp [overlayCodes]
  | cons t ts ih => cases cs <;> simp [overlayCodes, ih]

theorem overlayCodes_getD (ts : List Topic) (cs : List Nat) (i : Nat)
    (d : Topic) (dc : Nat) (hi : i < ts.length) :
    ((overlayCodes ts cs).getD i d).qos
        = (if i < cs.length then cs.getD i dc else (ts.getD i d).qos) ∧
    ((overlayCodes ts cs).getD i d).name = (ts.getD i d).name := by
  induction ts generalizing cs i with
  | nil => simp at hi
  | cons t ts ih =>
    cases cs with
    | nil => simp [overlayCodes]
    | cons c cs =>
      cases i with
      | zero => simp [overlayCodes]
      | succ j =>
        simp only [overlayCodes, List.getD_cons_succ, List.length_cons,
          Nat.add_lt_add_iff_right]
        exact ih cs j (by simpa using hi)

/-- C8: when the logic loop receives a SubAck whose id resolves to a
Subscribe origin, each origin topic's qos is overwritten positionally by
the server code when one exists (topics beyond the code count keep their
requested qos; extra codes are ignored), the SubDone event carries those
topics with nil error, the id is freed from the side-table, and `S<id>`
is deleted. -/
theorem C8_handleSubAck (table : List (Nat × OriginPacket)) (pid : Nat)
    (codes : List Nat) (topics : List Topic)
    (h : getExtra table pid = some (.subscribeOrigin topics)) :
    (handleSubAck table pid codes).subDoneTopics
        = some (overlayCodes topics codes) ∧
    (handleSubAck table pid codes).table
        = table.filter (fun e => e.1 != pid) ∧
    (handleSubAck table pid codes).persistDeletes = [sendKey pid] ∧
    (overlayCodes topics codes).length = topics.length ∧
    (∀ i d dc, i < topics.length →
      ((overlayCodes topics codes).getD i d).qos
          = (if i < codes.length then codes.getD i dc
             else (topics.getD i d).qos) ∧
      ((overlayCodes topics codes).getD i d).name
          = (topics.getD i d).name) := by
  refine ⟨?_, ?_, ?_, overlayCodes_length topics codes,
    fun i d dc hi => overlayCodes_getD topics codes i d dc hi⟩
  · simp [handleSubAck, h]
  · simp [handleSubAck, h]
  · simp [handleSubAck, h]

/-- C8 witness: a SubAck with one code for a two-topic Subscribe origin
overwrites only the first topic's qos, emits the event, frees the id and
deletes `S7`. -/
theorem C8_handleSubAck_witness :
    (handleSubAck [(7, .subscribeOrigin [⟨"a", 0⟩, ⟨"b", 1⟩])] 7 [2])
        = ⟨[], some [⟨"a", 2⟩, ⟨"b", 1⟩], [sendKey 7]⟩ := by
  have h := C8_handleSubAck [(7, .subscribeOrigin [⟨"a", 0⟩, ⟨"b", 1⟩])] 7 [2]
    [⟨"a", 0⟩, ⟨"b", 1⟩] (by decide)
  obtain ⟨h1, h2, h3, _, _⟩ := h
  have e : overlayCodes [⟨"a", 0⟩, ⟨"b", 1⟩] [2] = [⟨"a", 2⟩, ⟨"b", 1⟩] := by
    decide
  cases he : handleSubAck [(7, .subscribeOrigin [⟨"a", 0⟩, ⟨"b", 1⟩])] 7 [2]
  · simp_all

/-! ## getRawProps (src/util.go lines 199-282)

The function manipulates Go byte slices, so slices are modelled as views
into an underlying array with Go's exact bounds rules: a slice expression
`s[lo:hi]` is legal when `lo ≤ hi ≤ cap(s)` (capacity, not length),
`s[lo:]` means `s[lo:len(s)]`, indexing needs `i < len(s)`, and
`binary.BigEndian.Uint16` needs `len ≥ 2`.  Any violation panics; the
deferred `recover` in `getRawProps` converts every such panic into
`ErrDecodeBadPacket`. -/

/-- A Go byte slice: a view of `len` bytes of `arr` starting at `off`,
with capacity `arr.length - off`. -/
structure GoSlice where
  arr : List Nat
  off : Nat
  len : Nat
deriving Repr, DecidableEq

def GoSlice.cap (s : GoSlice) : Nat := s.arr.length - s.off

/-- The bytes visible through the slice (what `append`/copy and
`bytes.NewReader` observe). -/
def GoSlice.toList (s : GoSlice) : List Nat := (s.arr.drop s.off).take s.len

/-- `s[i]`: panics (`none`) unless `i < len(s)`. -/
def GoSlice.index (s : GoSlice) (i : Nat) : Option Nat :=
  if i < s.len then s.arr.get? (s.off + i) else none

/-- `s[lo:hi]`: legal when `lo ≤ hi ≤ cap(s)`; `none` is a panic. -/
def GoSlice.slice (s : GoSlice) (lo hi : Nat) : Option GoSlice :=
  if lo ≤ hi ∧ hi ≤ s.cap then some ⟨s.arr, s.off + lo, hi - lo⟩ else none

/-- `s[lo:]` = `s[lo:len(s)]`. -/
def GoSlice.sliceFrom (s : GoSlice) (lo : Nat) : Option GoSlice :=
  s.slice lo s.len

/-- `binary.BigEndian.Uint16(s)`: panics (`none`) unless `len(s) ≥ 2`;
reads the first two visible bytes. -/
def GoSlice.getUint16 (s : GoSlice) : Option Nat :=
  if 2 ≤ s.len then
    match s.arr.get? s.off, s.arr.get? (s.off + 1) with
    | some b0, some b1 => some (b0 * 256 + b1)
    | _, _ => none
  else none

/-- Modelled from the spec: the V5 property-key byte constants are
declared outside src/util.go; the spec names the recognized keys and this
development uses their standard wire values.  Keys taking a single byte:
payload-format-indicator 1, request-problem-info 23, request-response-info
25, maximum-qos 36, retain-available 37, wildcard-subscription-available
40, subscription-id-available 41, shared-subscription-available 42.
Four-byte keys: message-expiry-interval 2, session-expiry-interval 17,
will-delay-interval 24, maximum-packet-size 39.  Two-byte keys:
server-keepalive 19, receive-maximum 33, topic-alias-maximum 34,
topic-alias 35.  Length-prefixed keys: content-type 3, response-topic 8,
correlation-data 9, assigned-client-id 18, auth-method 21, auth-data 22,
response-info 26, server-reference 28, reason-string 31.  Variable-int
key: subscription-id 11.  Pair key: user-property 38. -/
def recognizedPropKeys : List Nat :=
  [1, 2, 3, 8, 9, 11, 17, 18, 19, 21, 22, 23, 24, 25, 26, 28, 31,
   33, 34, 35, 36, 37, 38, 39, 40, 41, 42]

/-- Result of computing one property value `p` inside the switch. -/
inductive PropStep
  | panicked          -- a slice expression or Uint16 went out of range
  | badKey            -- the default branch: err = ErrDecodeBadPacket
  | okProp (p : GoSlice)
deriving Repr, DecidableEq

/-- `p = propsBytes[1:hi]` (the fixed-width cases of the switch, and the
final slice of the derived-length cases). -/
def fixedProp (propsBytes : GoSlice) (hi : Nat) : PropStep :=
  match propsBytes.slice 1 hi with
  | some p => .okProp p
  | none => .panicked

/-- `p = propsBytes[1 : 3+getUint16(propsBytes[1:3])]` (the
string/binary-valued cases of the switch). -/
def lenPrefixedProp (propsBytes : GoSlice) : PropStep :=
  match propsBytes.slice 1 3 with
  | none => .panicked
  | some s2 =>
    match s2.getUint16 with
    | none => .panicked
    | some l => fixedProp propsBytes (3 + l)

/-- The switch on `propsBytes[0]` (src/util.go lines 214-275), computing
the property bytes `p`.  The byte values of the `propKey` constants are
listed at `recognizedPropKeys`. -/
def propValue (propsBytes : GoSlice) (key : Nat) : PropStep :=
  if key = 1 then fixedProp propsBytes 2          -- payload format indicator
  else if key = 2 then fixedProp propsBytes 5     -- message expiry interval
  else if key = 3 then lenPrefixedProp propsBytes -- content type
  else if key = 8 then lenPrefixedProp propsBytes -- response topic
  else if key = 9 then lenPrefixedProp propsBytes -- correlation data
  else if key = 11 then                           -- subscription id
    match propsBytes.sliceFrom 1 with
    | none => .panicked
    | some sub => fixedProp propsBytes (1 + (getRemainLength sub.toList).2)
  else if key = 17 then fixedProp propsBytes 5    -- session expiry interval
  else if key = 18 then lenPrefixedProp propsBytes -- assigned client id
  else if key = 19 then fixedProp propsBytes 3    -- server keepalive
  else if key = 21 then lenPrefixedProp propsBytes -- auth method
  else if key = 22 then lenPrefixedProp propsBytes -- auth data
  else if key = 23 then fixedProp propsBytes 2    -- request problem info
  else if key = 24 then fixedProp propsBytes 5    -- will delay interval
  else if key = 25 then fixedProp propsBytes 2    -- request response info
  else if key = 26 then lenPrefixedProp propsBytes -- response info
  else if key = 28 then lenPrefixedProp propsBytes -- server reference
  else if key = 31 then lenPrefixedProp propsBytes -- reason string
  else if key = 33 then fixedProp propsBytes 3    -- receive maximum
  else if key = 34 then fixedProp propsBytes 3    -- topic alias maximum
  else if key = 35 then fixedProp propsBytes 3    -- topic alias
  else if key = 36 then fixedProp propsBytes 2    -- maximum qos
  else if key = 37 then fixedProp propsBytes 2    -- retain available
  else if key = 38 then                           -- user property
    match propsBytes.slice 1 3 with
    | none => .panicked
    | some s2 =>
      match s2.getUint16 with
      | none => .panicked
      | some l1 =>
        let keyEnd := 2 + l1
        match propsBytes.slice (keyEnd + 1) (keyEnd + 3) with
        | none => .panicked
        | some s3 =>
          match s3.getUint16 with
          | none => .panicked
          | some l2 => fixedProp propsBytes (2 + keyEnd + l2 + 1)
  else if key = 39 then fixedProp propsBytes 5    -- maximum packet size
  else if key = 40 then fixedProp propsBytes 2    -- wildcard sub available
  else if key = 41 then fixedProp propsBytes 2    -- subscription id available
  else if key = 42 then fixedProp propsBytes 2    -- shared sub available
  else .badKey                                    -- default: bad packet

/-- `props[k] = append(props[k], p...)` on a Go map modelled as an
association list in first-insertion order. -/
def mapAppend (m : List (Nat × List Nat)) (k : Nat) (v : List Nat) :
    List (Nat × List Nat) :=
  match m with
  | [] => [(k, v)]
  | (k2, v2) :: rest =>
      if k2 = k then (k2, v2 ++ v) :: rest
      else (k2, v2) :: mapAppend rest k v

/-- Result of the property loop. -/
inductive PropsResult
  | panicked
  | badPacketErr
  | okProps (props : List (Nat × List Nat))
deriving Repr, DecidableEq

/-- The loop `for i := 0; i < propsLen;` of `getRawProps` (src/util.go
lines 212-279): read the key from `propsBytes[0]`, compute `p` via the
switch, append the visible bytes of `p` under the key, reslice
`propsBytes = propsBytes[1+len(p):]` and advance `i += 1 + len(p)`. -/
def propsLoop (propsLen : Nat) (propsBytes : GoSlice)
    (props : List (Nat × List Nat)) (i : Nat) : PropsResult :=
  if _h : i < propsLen then
    match propsBytes.index 0 with
    | none => .panicked
    | some key =>
      match propValue propsBytes key with
      | .panicked => .panicked
      | .badKey => .badPacketErr
      | .okProp p =>
        match propsBytes.sliceFrom (1 + p.len) with
        | none => .panicked
        | some pb2 =>
            propsLoop propsLen pb2 (mapAppend props key p.toList)
              (i + 1 + p.len)
  else .okProps props
termination_by propsLen - i
decreasing_by omega

/-- `getRawProps(data)` (src/util.go lines 199-282).  The deferred
`recover` turns every panic into `ErrDecodeBadPacket`, so `.error ()`
stands for `ErrDecodeBadPacket` (recovered panic or the switch's default
branch) and `.ok (props, next)` for the successful return, where `next`
is `data[propsLen+byteLen:]`. -/
def getRawProps (data : List Nat) :
    Except Unit (List (Nat × List Nat) × List Nat) :=
  let root : GoSlice := ⟨data, 0, data.length⟩
  let r := getRemainLength data      -- bytes.NewReader(data)
  match root.slice r.2 (r.1 + r.2) with
  | none => .error ()
  | some propsBytes =>
    match root.sliceFrom (r.1 + r.2) with
    | none => .error ()
    | some next =>
      match propsLoop r.1 propsBytes [] 0 with
      | .panicked => .error ()
      | .badPacketErr => .error ()
      | .okProps props => .ok (props, next.toList)

theorem GoSlice.toList_tail (data : List Nat) (k : Nat) :
    GoSlice.toList ⟨data, k, data.length - k⟩ = data.drop k := by
  rw [GoSlice.toList]
  rw [show data.length - k = (data.drop k).length by simp]
  exact List.take_length _

/-- Whatever the input, `getRawProps` either returns `ErrDecodeBadPacket`
or succeeds, and on success the second component is exactly the bytes
after the property block, `data[propsLen+byteLen:]`. -/
theorem getRawProps_shape (data : List Nat) :
    getRawProps data = .error () ∨
    ∃ props, getRawProps data = .ok (props,
      data.drop ((getRemainLength data).1 + (getRemainLength data).2)) := by
  simp only [getRawProps]
  cases hs : GoSlice.slice ⟨data, 0, data.length⟩ (getRemainLength data).2
      ((getRemainLength data).1 + (getRemainLength data).2) with
  | none => simp [hs]
  | some pb =>
    cases hn : GoSlice.sliceFrom ⟨data, 0, data.length⟩
        ((getRemainLength data).1 + (getRemainLength data).2) with
    | none => simp [hs, hn]
    | some nxt =>
      cases hl : propsLoop (getRemainLength data).1 pb [] 0 with
      | panicked => simp [hs, hn, hl]
      | badPacketErr => simp [hs, hn, hl]
      | okProps props =>
        right
        refine ⟨props, ?_⟩
        simp only [hs, hn, hl]
        rw [GoSlice.sliceFrom, GoSlice.slice] at hn
        split_ifs at hn with hc
        all_goals cases hn
        all_goals simp [GoSlice.toList_tail]

/-- A declared property block running past the end of the input is a
recovered panic: `ErrDecodeBadPacket`. -/
theorem getRawProps_overrun (data : List Nat)
    (h : data.length < (getRemainLength data).1 + (getRemainLength data).2) :
    getRawProps data = .error () := by
  simp only [getRawProps]
  have hs : GoSlice.slice ⟨data, 0, data.length⟩ (getRemainLength data).2
      ((getRemainLength data).1 + (getRemainLength data).2) = none := by
    rw [GoSlice.slice]
    apply if_neg
    rintro ⟨-, hb⟩
    simp [GoSlice.cap] at hb
    omega
  simp [hs]

/-- The switch's default branch: an unrecognized key byte. -/
theorem propValue_badKey (pb : GoSlice) (key : Nat)
    (h : key ∉ recognizedPropKeys) : propValue pb key = .badKey := by
  obtain ⟨e1, e2, e3, e4, e5, e6, e7, e8, e9, e10, e11, e12, e13, e14, e15,
      e16, e17, e18, e19, e20, e21, e22, e23, e24, e25, e26, e27⟩ :
      key ≠ 1 ∧ key ≠ 2 ∧ key ≠ 3 ∧ key ≠ 8 ∧ key ≠ 9 ∧ key ≠ 11 ∧
      key ≠ 17 ∧ key ≠ 18 ∧ key ≠ 19 ∧ key ≠ 21 ∧ key ≠ 22 ∧ key ≠ 23 ∧
      key ≠ 24 ∧ key ≠ 25 ∧ key ≠ 26 ∧ key ≠ 28 ∧ key ≠ 31 ∧ key ≠ 33 ∧
      key ≠ 34 ∧ key ≠ 35 ∧ key ≠ 36 ∧ key ≠ 37 ∧ key ≠ 38 ∧ key ≠ 39 ∧
      key ≠ 40 ∧ key ≠ 41 ∧ key ≠ 42 := by
    simpa [recognizedPropKeys, not_or] using h
  rw [propValue, if_neg e1, if_neg e2, if_neg e3, if_neg e4, if_neg e5,
    if_neg e6, if_neg e7, if_neg e8, if_neg e9, if_neg e10, if_neg e11,
    if_neg e12, if_neg e13, if_neg e14, if_neg e15, if_neg e16, if_neg e17,
    if_neg e18, if_neg e19, if_neg e20, if_neg e21, if_neg e22, if_neg e23,
    if_neg e24, if_neg e25, if_neg e26, if_neg e27]

/-- An unrecognized leading property-key byte yields
`ErrDecodeBadPacket`. -/
theorem getRawProps_badKey (data : List Nat) (pl bl key : Nat)
    (hr : getRemainLength data = (pl, bl))
    (hfit : pl + bl ≤ data.length) (hpl : 0 < pl)
    (hkey : data.get? bl = some key)
    (hbad : key ∉ recognizedPropKeys) :
    getRawProps data = .error () := by
  simp only [getRawProps, hr]
  have hs : GoSlice.slice ⟨data, 0, data.length⟩ bl (pl + bl)
      = some ⟨data, bl, pl⟩ := by
    have hc : bl ≤ pl + bl ∧
        pl + bl ≤ GoSlice.cap ⟨data, 0, data.length⟩ := by
      refine ⟨by omega, ?_⟩
      simp [GoSlice.cap]
      omega
    rw [GoSlice.slice, if_pos hc]
    simp
  have hn : GoSlice.sliceFrom ⟨data, 0, data.length⟩ (pl + bl)
      = some ⟨data, pl + bl, data.length - (pl + bl)⟩ := by
    have hc : pl + bl ≤ (GoSlice.mk data 0 data.length).len ∧
        (GoSlice.mk data 0 data.length).len
          ≤ GoSlice.cap ⟨data, 0, data.length⟩ := by
      refine ⟨by simpa using hfit, ?_⟩
      simp [GoSlice.cap]
    rw [GoSlice.sliceFrom, GoSlice.slice, if_pos hc]
    simp
  have hloop : propsLoop pl ⟨data, bl, pl⟩ [] 0 = .badPacketErr := by
    rw [propsLoop, dif_pos hpl]
    have hidx : GoSlice.index ⟨data, bl, pl⟩ 0 = some key := by
      rw [GoSlice.index, if_pos hpl]
      simpa using hkey
    simp only [hidx, propValue_badKey _ _ hbad]
  simp [hs, hn, hloop]

/-- Once the header parsed and the block fits, `getRawProps` is the
property loop run on `data[byteLen : propsLen+byteLen]`, with
`data[propsLen+byteLen:]` as the trailing bytes. -/
theorem getRawProps_go (data : List Nat) (pl bl : Nat)
    (hr : getRemainLength data = (pl, bl)) (hfit : pl + bl ≤ data.length) :
    getRawProps data =
      (match propsLoop pl ⟨data, bl, pl⟩ [] 0 with
       | .panicked => .error ()
       | .badPacketErr => .error ()
       | .okProps props => .ok (props, data.drop (pl + bl))) := by
  simp only [getRawProps, hr]
  have hs : GoSlice.slice ⟨data, 0, data.length⟩ bl (pl + bl)
      = some ⟨data, bl, pl⟩ := by
    have hc : bl ≤ pl + bl ∧
        pl + bl ≤ GoSlice.cap ⟨data, 0, data.length⟩ := by
      refine ⟨by omega, ?_⟩
      simp [GoSlice.cap]
      omega
    rw [GoSlice.slice, if_pos hc]
    simp
  have hn : GoSlice.sliceFrom ⟨data, 0, data.length⟩ (pl + bl)
      = some ⟨data, pl + bl, data.length - (pl + bl)⟩ := by
    have hc : pl + bl ≤ (GoSlice.mk data 0 data.length).len ∧
        (GoSlice.mk data 0 data.length).len
          ≤ GoSlice.cap ⟨data, 0, data.length⟩ := by
      refine ⟨by simpa using hfit, ?_⟩
      simp [GoSlice.cap]
    rw [GoSlice.sliceFrom, GoSlice.slice, if_pos hc]
    simp
  simp only [hs, hn]
  cases hl : propsLoop pl ⟨data, bl, pl⟩ [] 0 with
  | panicked => rfl
  | badPacketErr => rfl
  | okProps props =>
    simp only []
    rw [GoSlice.toList_tail]

theorem remainLength_two (t : List Nat) : getRemainLength (2 :: t) = (2, 1) := by
  rw [getRemainLength, getRemainLengthAux_cons _ _ _ _ (by norm_num),
    if_pos (by decide)]
  decide

/-- A property whose declared width runs past the declared block end
panics on a slice bound and is recovered into `ErrDecodeBadPacket`: here
a block of declared length 2 holding a message-expiry-interval property
(which needs 1+4 bytes). -/
theorem getRawProps_truncatedProp (x : Nat) (rest : List Nat) :
    getRawProps (2 :: 2 :: x :: rest) = .error () := by
  rw [getRawProps_go (2 :: 2 :: x :: rest) 2 1 (remainLength_two _)
    (by simp)]
  have hloop : propsLoop 2 ⟨2 :: 2 :: x :: rest, 1, 2⟩ [] 0 = .panicked := by
    rw [propsLoop, dif_pos (by norm_num)]
    have hidx : GoSlice.index ⟨2 :: 2 :: x :: rest, 1, 2⟩ 0 = some 2 := by
      rw [GoSlice.index, if_pos (by norm_num)]
      simp
    have hpv2 : propValue ⟨2 :: 2 :: x :: rest, 1, 2⟩ 2
        = fixedProp ⟨2 :: 2 :: x :: rest, 1, 2⟩ 5 := by
      rw [propValue, if_neg (by norm_num), if_pos rfl]
    by_cases h3 : 5 ≤ GoSlice.cap ⟨2 :: 2 :: x :: rest, 1, 2⟩
    · have hfp : fixedProp ⟨2 :: 2 :: x :: rest, 1, 2⟩ 5
          = .okProp ⟨2 :: 2 :: x :: rest, 2, 4⟩ := by
        rw [fixedProp.eq_def, GoSlice.slice, if_pos ⟨by omega, h3⟩]
      have hsf : GoSlice.sliceFrom ⟨2 :: 2 :: x :: rest, 1, 2⟩ 5 = none := by
        rw [GoSlice.sliceFrom, GoSlice.slice]
        apply if_neg
        rintro ⟨hc1, -⟩
        simp at hc1
      simp [hidx, hpv2, hfp, hsf]
    · have hfp : fixedProp ⟨2 :: 2 :: x :: rest, 1, 2⟩ 5 = .panicked := by
        rw [fixedProp.eq_def, GoSlice.slice, if_neg]
        rintro ⟨-, hc2⟩
        exact h3 hc2
      simp [hidx, hpv2, hfp]
  rw [hloop]

/-- A well-formed block holding one payload-format-indicator property
parses into the singleton map, with the payload bytes returned
untouched. -/
theorem getRawProps_singleProp (b : Nat) (rest : List Nat) :
    getRawProps (2 :: 1 :: b :: rest) = .ok ([(1, [b])], rest) := by
  rw [getRawProps_go (2 :: 1 :: b :: rest) 2 1 (remainLength_two _)
    (by simp)]
  have hloop : propsLoop 2 ⟨2 :: 1 :: b :: rest, 1, 2⟩ [] 0
      = .okProps [(1, [b])] := by
    rw [propsLoop, dif_pos (by norm_num)]
    have hidx : GoSlice.index ⟨2 :: 1 :: b :: rest, 1, 2⟩ 0 = some 1 := by
      rw [GoSlice.index, if_pos (by norm_num)]
      simp
    have hpv : propValue ⟨2 :: 1 :: b :: rest, 1, 2⟩ 1
        = .okProp ⟨2 :: 1 :: b :: rest, 2, 1⟩ := by
      rw [propValue, if_pos rfl, fixedProp.eq_def, GoSlice.slice, if_pos]
      constructor
      · omega
      · simp [GoSlice.cap]
    have hsf : GoSlice.sliceFrom ⟨2 :: 1 :: b :: rest, 1, 2⟩ 2
        = some ⟨2 :: 1 :: b :: rest, 3, 0⟩ := by
      rw [GoSlice.sliceFrom, GoSlice.slice, if_pos]
      · norm_num
      constructor
      · norm_num
      · simp [GoSlice.cap]
    have hp : GoSlice.toList ⟨2 :: 1 :: b :: rest, 2, 1⟩ = [b] := by
      simp [GoSlice.toList]
    have hdone : propsLoop 2 ⟨2 :: 1 :: b :: rest, 3, 0⟩
        [(1, [b])] 2 = .okProps [(1, [b])] := by
      rw [propsLoop, dif_neg (by norm_num)]
    simp [hidx, hpv, hp, hsf, hdone, mapAppend]
  rw [hloop]
  have : (2 :: 1 :: b :: rest).drop (2 + 1) = rest := by simp
  simp [this]

/-- C10: `getRawProps` is total and never propagates a panic — for every
input it returns either `ErrDecodeBadPacket` or a parsed map together
with exactly the bytes following the declared property block; a declared
block running past the input, a property field running past the declared
block, and an unrecognized leading key byte each produce
`ErrDecodeBadPacket`; a well-formed block parses into the key-to-bytes
map with the payload returned untouched. -/
theorem C10_getRawProps (data : List Nat) (pl bl key x b : Nat)
    (rest : List Nat) :
    (getRawProps data = .error () ∨
      ∃ props, getRawProps data = .ok (props,
        data.drop ((getRemainLength data).1 + (getRemainLength data).2))) ∧
    (data.length < (getRemainLength data).1 + (getRemainLength data).2 →
      getRawProps data = .error ()) ∧
    (getRemainLength data = (pl, bl) → pl + bl ≤ data.length → 0 < pl →
      data.get? bl = some key → key ∉ recognizedPropKeys →
      getRawProps data = .error ()) ∧
    getRawProps (2 :: 2 :: x :: rest) = .error () ∧
    getRawProps (2 :: 1 :: b :: rest) = .ok ([(1, [b])], rest) :=
  ⟨getRawProps_shape data, getRawProps_overrun data,
   fun hr hfit hpl hkey hbad =>
     getRawProps_badKey data pl bl key hr hfit hpl hkey hbad,
   getRawProps_truncatedProp x rest, getRawProps_singleProp b rest⟩

/-- C10 witness: a block with the single unrecognized key byte 99. -/
theorem C10_getRawProps_witness : getRawProps [1, 99] = .error () :=
  (C10_getRawProps [1, 99] 1 1 99 0 0 []).2.2.1 (by decide) (by decide)
    (by decide) (by decide) (by decide)

end Libmqtt
